import Mathlib

/-!
Verification of the task/category state-management model of the Todry
application (src/src/App.tsx).  The four collections (active tasks, active
categories, archived tasks, archived categories), the two undo slots
(`lastDeletedTask`, `lastDeletedCategory`), the category filter and the search
query are embedded as a record, and each state-mutating UI handler is embedded
as a pure state transformer translated clause by clause from the source.
-/

namespace Todry

/-- Priority enum from the `Task` interface (App.tsx lines 6-15). -/
inductive Priority where
  | Low : Priority
  | Medium : Priority
  | High : Priority
deriving DecidableEq, Repr

/-- The `Task` interface (App.tsx lines 6-15).  Timestamps are embedded as
naturals, the optional `description` and `dueDate` fields as `Option`. -/
structure Task where
  id : String
  text : String
  description : Option String
  completed : Bool
  category : String
  priority : Priority
  dueDate : Option Nat
  createdAt : Nat
deriving DecidableEq, Repr

/-- The state the claims are about: the four collections held in React state
(App.tsx lines 182-185), the two undo slots `lastDeletedTask` /
`lastDeletedCategory` (lines 203-204), the category filter `activeCategory`
(line 187, `"All"` meaning no filter) and the search query (line 188).
Pure UI state (toast text, sheet mode, refs, theme) is omitted: no claim
mentions it. -/
structure AppState where
  tasks : List Task
  categories : List String
  archivedTasks : List Task
  archivedCategories : List String
  lastDeletedTask : Option Task
  lastDeletedCategory : Option String
  activeCategory : String
  searchQuery : String
deriving DecidableEq, Repr

/-- JavaScript `String.prototype.trim`: strips whitespace from both ends,
embedded over the character list. -/
def strTrim (s : String) : String :=
  String.mk (((s.data.dropWhile Char.isWhitespace).reverse.dropWhile
    Char.isWhitespace).reverse)

/-- JavaScript `String.prototype.toLowerCase`, embedded character-wise. -/
def strToLower (s : String) : String :=
  String.mk (s.data.map Char.toLower)

/-- The state of a fresh repository partition: every persistence helper
returns an empty collection when storage is empty (App.tsx lines 151-177),
`activeCategory` starts as `'All'` (line 187) and the search query empty. -/
def emptyState : AppState :=
  { tasks := [], categories := [], archivedTasks := [], archivedCategories := [],
    lastDeletedTask := none, lastDeletedCategory := none,
    activeCategory := "All", searchQuery := "" }

/-- The `ADD_TASK` branch of `handleSave` (App.tsx lines 366-397): rejected
when the text is blank after trimming, otherwise the new task is prepended to
the active list.  The id (`'task_' + Date.now()` in the source) and the
creation timestamp are parameters, as is the selected category, which the
source takes from the sheet state without validating it against the active
category list. -/
def createTask (text desc category : String) (priority : Priority)
    (dueDate : Option Nat) (id : String) (now : Nat) (st : AppState) : AppState :=
  if strTrim text = "" then st
  else
    { st with tasks :=
        { id := id, text := strTrim text, description := some (strTrim desc),
          completed := false, category := category, priority := priority,
          dueDate := dueDate, createdAt := now } :: st.tasks }

/-- The `ADD_CATEGORY` branch of `handleSave` (App.tsx lines 366-372): blank
names are rejected, duplicates are ignored, a new name is appended. -/
def createCategory (name : String) (st : AppState) : AppState :=
  if strTrim name = "" then st
  else if st.categories.contains (strTrim name) then st
  else { st with categories := st.categories ++ [strTrim name] }

/-- `deleteTask` (App.tsx lines 424-438): if a task with the id is found it is
prepended to the archived list, removed from the active list and recorded in
`lastDeletedTask`.  The source does not touch `lastDeletedCategory`. -/
def deleteTask (id : String) (st : AppState) : AppState :=
  match st.tasks.find? (fun t => t.id == id) with
  | some t =>
      { st with
        archivedTasks := t :: st.archivedTasks,
        tasks := st.tasks.filter (fun u => u.id != id),
        lastDeletedTask := some t }
  | none => st

/-- `undoDelete` (App.tsx lines 440-452): the task slot is consumed in
preference to the category slot; the task branch removes the task from the
archive by id and prepends it to the active list, the category branch removes
the name from the archived names and appends (`[...prev, cat]`) it to the
active names. -/
def undoDelete (st : AppState) : AppState :=
  match st.lastDeletedTask with
  | some t =>
      { st with
        archivedTasks := st.archivedTasks.filter (fun u => u.id != t.id),
        tasks := t :: st.tasks,
        lastDeletedTask := none }
  | none =>
      match st.lastDeletedCategory with
      | some c =>
          { st with
            archivedCategories := st.archivedCategories.filter (fun d => d != c),
            categories := st.categories ++ [c],
            lastDeletedCategory := none }
      | none => st

/-- The fallback computation in `deleteCategory` (App.tsx line 460):
`categories.find(c => c !== cat) || 'General'`.  JavaScript `||` falls through
on every falsy value, and the only falsy string is the empty string, so a
first other category `""` also yields `'General'`. -/
def fallbackFor (categories : List String) (cat : String) : String :=
  match categories.find? (fun c => c != cat) with
  | some c => if c = "" then "General" else c
  | none => "General"

/-- `deleteCategory` (App.tsx lines 454-469): the name is prepended to the
archived names, recorded in `lastDeletedCategory` and removed from the active
names; the fallback is computed from the pre-deletion `categories` closure
value; every active task in the deleted category is reassigned to the
fallback; if the deleted name was the active filter the filter resets to
`'All'`.  The source does not touch `lastDeletedTask` or the archived tasks. -/
def deleteCategory (cat : String) (st : AppState) : AppState :=
  let fallback := fallbackFor st.categories cat
  { st with
    archivedCategories := cat :: st.archivedCategories,
    lastDeletedCategory := some cat,
    categories := st.categories.filter (fun c => c != cat),
    tasks := st.tasks.map (fun t =>
      if t.category = cat then { t with category := fallback } else t),
    activeCategory := if st.activeCategory = cat then "All" else st.activeCategory }

/-- `restoreTaskFromArchive` (App.tsx lines 472-479): removes the task from
the archive by id and prepends it to the active list.  The undo slots are not
touched. -/
def restoreTaskFromArchive (task : Task) (st : AppState) : AppState :=
  { st with
    archivedTasks := st.archivedTasks.filter (fun u => u.id != task.id),
    tasks := task :: st.tasks }

/-- `restoreCategoryFromArchive` (App.tsx lines 481-488): removes the name
from the archived names and appends (`[...prev, cat]`) it to the end of the
active names. -/
def restoreCategoryFromArchive (cat : String) (st : AppState) : AppState :=
  { st with
    archivedCategories := st.archivedCategories.filter (fun d => d != cat),
    categories := st.categories ++ [cat] }

/-- `permanentlyDeleteTask` (App.tsx lines 490-496): filters the archived
tasks by id; no other collection and neither undo slot is touched. -/
def permanentlyDeleteTask (id : String) (st : AppState) : AppState :=
  { st with archivedTasks := st.archivedTasks.filter (fun u => u.id != id) }

/-- `permanentlyDeleteCategory` (App.tsx lines 498-504): filters the archived
names; no other collection and neither undo slot is touched. -/
def permanentlyDeleteCategory (cat : String) (st : AppState) : AppState :=
  { st with archivedCategories := st.archivedCategories.filter (fun d => d != cat) }

/-- The parse result of a backup document for `importTasks` (App.tsx lines
545-564): `data.tasks` / `data.categories` are `none` when the field is
absent from the parsed JSON (or `null`, which is equally falsy under the
source's `if (data.tasks)` guard); a present array value is always truthy. -/
structure BackupDoc where
  tasks : Option (List Task)
  categories : Option (List String)
deriving DecidableEq, Repr

/-- `importTasks` (App.tsx lines 545-564), applied to the outcome of
`JSON.parse`: `none` stands for a parse failure (the `catch` branch, which
only shows a toast and leaves the state untouched); on success each present
field replaces the corresponding collection wholesale and each absent field
leaves it unchanged. -/
def importTasks (parsed : Option BackupDoc) (st : AppState) : AppState :=
  match parsed with
  | none => st
  | some d =>
      { st with
        tasks := d.tasks.getD st.tasks,
        categories := d.categories.getD st.categories }

/-- A per-category stats row of `categoryStats` (App.tsx lines 289-296).
The source computes `progress` with JavaScript numbers; it is embedded
exactly over the rationals. -/
structure CatStat where
  name : String
  count : Nat
  progress : ℚ
deriving DecidableEq, Repr

/-- The per-category body of `categoryStats` (App.tsx lines 290-295):
`count` is the number of active tasks in the category, `progress` zero for an
empty category and `completed / count * 100` otherwise.  The source computes
`progress` with JavaScript numbers; it is embedded exactly over ℚ. -/
def catStatFor (st : AppState) (cat : String) : CatStat :=
  let catTasks := st.tasks.filter (fun t => t.category == cat)
  let completed := (catTasks.filter (fun t => t.completed)).length
  { name := cat, count := catTasks.length,
    progress :=
      if catTasks.length = 0 then 0
      else ((completed : ℚ) / (catTasks.length : ℚ)) * 100 }

/-- `categoryStats` (App.tsx lines 289-296): one row per active category. -/
def categoryStats (st : AppState) : List CatStat :=
  st.categories.map (catStatFor st)

/-- Occurrence of `pat` as a contiguous run inside a character list; embeds
JavaScript `String.prototype.includes` for `filteredTasks`. -/
def charsInclude (pat : List Char) : List Char → Bool
  | [] => pat.isEmpty
  | c :: rest => pat.isPrefixOf (c :: rest) || charsInclude pat rest

/-- `a.includes(b)` on strings, via `charsInclude`. -/
def strIncludes (s pat : String) : Bool :=
  charsInclude pat.data s.data

/-- `filteredTasks` (App.tsx lines 298-305): active tasks matching the
category filter (`'All'` matches everything) and a case-insensitive substring
match of the search query against the task text. -/
def filteredTasks (st : AppState) : List Task :=
  st.tasks.filter (fun t =>
    (st.activeCategory == "All" || t.category == st.activeCategory)
      && strIncludes (strToLower t.text) (strToLower st.searchQuery))

/-- The `Reorder.Group` `onReorder` handler (App.tsx lines 834-852): the
submitted order replaces the canonical task list only when
`activeCategory === 'All'` and the search query is empty; otherwise the
handler does nothing. -/
def reorderTasks (newOrder : List Task) (st : AppState) : AppState :=
  if st.activeCategory = "All" ∧ st.searchQuery = "" then
    { st with tasks := newOrder }
  else st

/-- The repository invariant claimed by the spec: every active task's
category is an active category name. -/
def invariantHolds (st : AppState) : Prop :=
  ∀ t ∈ st.tasks, t.category ∈ st.categories

instance (st : AppState) : Decidable (invariantHolds st) := by
  unfold invariantHolds; infer_instance

/-- Number of occupied undo slots. -/
def pendingCount (st : AppState) : Nat :=
  (if st.lastDeletedTask.isSome then 1 else 0)
    + (if st.lastDeletedCategory.isSome then 1 else 0)

/-! ### Concrete states used by witnesses and counterexamples -/

/-- A sample task living in the `"Work"` category. -/
def workTask : Task :=
  { id := "task_1", text := "Ship v1", description := some "",
    completed := false, category := "Work", priority := Priority.High,
    dueDate := none, createdAt := 0 }

/-- A sample task living in the `"B"` category. -/
def bTask : Task :=
  { id := "t1", text := "x", description := none, completed := false,
    category := "B", priority := Priority.Low, dueDate := none, createdAt := 0 }

/-- Fresh partition after creating the sole category `"Work"` and one task in
it: the repository invariant holds here. -/
def soleCategoryState : AppState :=
  createTask "Ship v1" "" "Work" Priority.High none "task_1" 0
    (createCategory "Work" emptyState)

/-- State reached by importing a backup whose category list starts with the
empty string: `categories = ["", "B"]` and one task in `"B"`. -/
def emptyNameState : AppState :=
  importTasks (some { tasks := some [bTask], categories := some ["", "B"] }) emptyState

/-- State reached from a fresh partition by creating categories `"Home"` and
`"Work"`, one task in `"Work"`, then deleting category `"Work"` and the task:
both undo slots end up occupied. -/
def doubleSlotState : AppState :=
  deleteTask "task_1"
    (deleteCategory "Work"
      (createTask "Ship v1" "" "Work" Priority.High none "task_1" 0
        (createCategory "Work" (createCategory "Home" emptyState))))

/-- State reached by importing categories `["A", "B"]` and then deleting
`"B"`: active categories `["A"]`, archived categories `["B"]`. -/
def archivedBState : AppState :=
  deleteCategory "B"
    (importTasks (some { tasks := none, categories := some ["A", "B"] }) emptyState)

/-- State reached from `soleCategoryState` by deleting the task: the task sits
in the archive and in the undo slot. -/
def deletedTaskState : AppState := deleteTask "task_1" soleCategoryState

/-- `deletedTaskState` after permanently deleting the task: it is gone from
both collections, but the stale undo slot still holds it. -/
def purgedState : AppState := permanentlyDeleteTask "task_1" deletedTaskState

/-- State with the sole active category `"Work"` and `workTask` in the
archive. -/
def archivedWorkState : AppState :=
  { emptyState with categories := ["Work"], archivedTasks := [workTask] }

/-- State with two active categories and one task in `"Work"`. -/
def twoCatState : AppState :=
  { emptyState with categories := ["Home", "Work"], tasks := [workTask] }

/-- State with a single active task, used for the delete/undo round trip. -/
def roundtripState : AppState :=
  { emptyState with categories := ["Work"], tasks := [workTask] }

/-- State viewing the `"Home"` category filter, with one task. -/
def filteredViewState : AppState :=
  { emptyState with tasks := [workTask], activeCategory := "Home" }

/-! ### Helper lemmas -/

/-- Searching an empty pattern succeeds on every text. -/
theorem charsInclude_nil (l : List Char) : charsInclude [] l = true := by
  cases l with
  | nil => rfl
  | cons c rest => simp [charsInclude, List.isPrefixOf]

/-- When filtering leaves exactly one element, `find?` returns it. -/
theorem find?_of_filter_eq_singleton {α : Type} {p : α → Bool} {l : List α}
    {x : α} (h : l.filter p = [x]) : l.find? p = some x := by
  induction l with
  | nil => simp at h
  | cons a rest ih =>
    by_cases hp : p a
    · rw [List.filter_cons_of_pos hp] at h
      obtain ⟨rfl, -⟩ := List.cons_eq_cons.mp h
      simp [List.find?_cons, hp]
    · rw [List.filter_cons_of_neg hp] at h
      simp only [List.find?_cons]
      rw [Bool.eq_false_iff.mpr hp]
      exact ih h

/-- When filtering leaves exactly one element, consing it onto the
complementary filter is a permutation of the original list. -/
theorem cons_filter_not_perm {α : Type} {p : α → Bool} {l : List α} {x : α}
    (h : l.filter p = [x]) : (x :: l.filter (fun a => !p a)).Perm l := by
  have hperm := List.filter_append_perm p l
  rw [h] at hperm
  exact hperm

/-! ### Claim theorems -/

/-- C10: `deleteCategory` never modifies the archived task set, so an archived
task keeps its (now non-active) category name; restoring such a task after the
deletion puts a task into the active list whose category is not in the active
category list. -/
theorem deleteCategory_archive_frame (st : AppState) (name : String) (a : Task)
    (_ha : a ∈ st.archivedTasks) (hcat : a.category = name) :
    (deleteCategory name st).archivedTasks = st.archivedTasks
    ∧ a ∈ (restoreTaskFromArchive a (deleteCategory name st)).tasks
    ∧ a.category ∉ (restoreTaskFromArchive a (deleteCategory name st)).categories := by
  refine ⟨rfl, List.mem_cons_self a _, ?_⟩
  intro hmem
  have : (a.category != name) = true :=
    (List.mem_filter.mp hmem).2
  rw [hcat] at this
  simp at this

/-- C10 witness: a concrete archived task in the deleted category `"Work"`. -/
theorem deleteCategory_archive_frame_witness :
    workTask ∈ archivedWorkState.archivedTasks
    ∧ workTask.category = "Work"
    ∧ ((deleteCategory "Work" archivedWorkState).archivedTasks
        = archivedWorkState.archivedTasks
      ∧ workTask ∈ (restoreTaskFromArchive workTask
          (deleteCategory "Work" archivedWorkState)).tasks
      ∧ workTask.category ∉ (restoreTaskFromArchive workTask
          (deleteCategory "Work" archivedWorkState)).categories) :=
  ⟨by decide, by decide,
    deleteCategory_archive_frame archivedWorkState "Work" workTask
      (by decide) (by decide)⟩

/-- C5 counterexample: restoring the archived category `"B"` appends it to the
end of the active category list (`["A", "B"]`), not to the front as the claim
states. -/
theorem restoreCategory_appends_not_prepends :
    archivedBState.categories = ["A"]
    ∧ "B" ∈ archivedBState.archivedCategories
    ∧ (restoreCategoryFromArchive "B" archivedBState).categories = ["A", "B"]
    ∧ (restoreCategoryFromArchive "B" archivedBState).categories
        ≠ "B" :: archivedBState.categories := by decide

/-- C5 (amended): restoring a task removes it from the archive by id and
prepends it to the active tasks; restoring a category removes it from the
archived names and appends it to the end of the active names; neither restore
touches any task's category field. -/
theorem restore_spec (st : AppState) (task : Task) (cat : String) :
    (restoreTaskFromArchive task st).tasks = task :: st.tasks
    ∧ (restoreTaskFromArchive task st).archivedTasks
        = st.archivedTasks.filter (fun u => u.id != task.id)
    ∧ (restoreCategoryFromArchive cat st).categories = st.categories ++ [cat]
    ∧ (restoreCategoryFromArchive cat st).archivedCategories
        = st.archivedCategories.filter (fun d => d != cat)
    ∧ (restoreCategoryFromArchive cat st).tasks = st.tasks :=
  ⟨rfl, rfl, rfl, rfl, rfl⟩

/-- C7: a failed parse leaves the whole state unchanged; a backup missing both
fields changes nothing; each present field replaces the corresponding
collection wholesale, each absent field leaves it untouched; the archived
collections are never affected by import. -/
theorem importTasks_spec (st : AppState) (ts : List Task) (cs : List String)
    (d : BackupDoc) :
    importTasks none st = st
    ∧ importTasks (some { tasks := none, categories := none }) st = st
    ∧ (importTasks (some { tasks := some ts, categories := none }) st).tasks = ts
    ∧ (importTasks (some { tasks := some ts, categories := none }) st).categories
        = st.categories
    ∧ (importTasks (some { tasks := none, categories := some cs }) st).tasks
        = st.tasks
    ∧ (importTasks (some { tasks := none, categories := some cs }) st).categories
        = cs
    ∧ (importTasks (some { tasks := some ts, categories := some cs }) st).tasks = ts
    ∧ (importTasks (some { tasks := some ts, categories := some cs }) st).categories
        = cs
    ∧ (importTasks (some d) st).archivedTasks = st.archivedTasks
    ∧ (importTasks (some d) st).archivedCategories = st.archivedCategories :=
  ⟨rfl, rfl, rfl, rfl, rfl, rfl, rfl, rfl, rfl, rfl⟩

/-- C3 counterexample: starting from a fresh partition (no pending entry),
deleting category `"Work"` and then the task leaves BOTH undo slots occupied:
two entries are pending at once, refuting the single-slot claim. -/
theorem two_undo_entries_pending :
    pendingCount emptyState = 0
    ∧ pendingCount doubleSlotState = 2
    ∧ ¬ pendingCount doubleSlotState ≤ 1 := by decide

/-- C3 (amended): the pending undo state is two independent single slots;
`deleteCategory` overwrites only the category slot and leaves the task slot
alone, `deleteTask` overwrites only the task slot (when the task exists) and
leaves the category slot alone, so up to two entries can be pending at once. -/
theorem undo_slots_independent (st : AppState) (id cat : String) :
    (deleteCategory cat st).lastDeletedCategory = some cat
    ∧ (deleteCategory cat st).lastDeletedTask = st.lastDeletedTask
    ∧ (deleteTask id st).lastDeletedCategory = st.lastDeletedCategory
    ∧ (deleteTask id st).lastDeletedTask =
        (match st.tasks.find? (fun t => t.id == id) with
         | some t => some t
         | none => st.lastDeletedTask) := by
  refine ⟨rfl, rfl, ?_, ?_⟩ <;>
    · unfold deleteTask
      cases st.tasks.find? (fun t => t.id == id) <;> rfl

/-- Reduction of `undoDelete` when the task slot is occupied. -/
theorem undoDelete_task_slot (st : AppState) (t : Task)
    (h : st.lastDeletedTask = some t) :
    undoDelete st =
      { st with
        archivedTasks := st.archivedTasks.filter (fun u => u.id != t.id),
        tasks := t :: st.tasks,
        lastDeletedTask := none } := by
  unfold undoDelete
  rw [h]

/-- C1 counterexample: from a fresh partition, create the sole category
`"Work"` and a task in it (the invariant holds), then delete `"Work"`:
the task is reassigned to `"General"`, the active category list is empty,
and the invariant fails. -/
theorem invariant_broken_by_sole_category_deletion :
    invariantHolds soleCategoryState
    ∧ ¬ invariantHolds (deleteCategory "Work" soleCategoryState)
    ∧ (deleteCategory "Work" soleCategoryState).tasks.map (fun t => t.category)
        = ["General"]
    ∧ (deleteCategory "Work" soleCategoryState).categories = [] := by decide

/-- C1 (amended): the invariant is preserved by `deleteCategory` provided the
first active category other than the deleted one exists and is a non-empty
string (it is then the fallback, and remains active); with no or only an
empty-string other category the tasks fall back to `"General"`, which need not
be active. -/
theorem deleteCategory_preserves_invariant (st : AppState) (cat other : String)
    (hinv : invariantHolds st)
    (hfind : st.categories.find? (fun c => c != cat) = some other)
    (hne : other ≠ "") :
    invariantHolds (deleteCategory cat st) := by
  have hmem : other ∈ st.categories := List.mem_of_find?_eq_some hfind
  have hbne := List.find?_some hfind
  have hfb : fallbackFor st.categories cat = other := by
    unfold fallbackFor
    rw [hfind]
    simp [hne]
  have htasks : (deleteCategory cat st).tasks
      = st.tasks.map (fun u => if u.category = cat
          then { u with category := fallbackFor st.categories cat } else u) := rfl
  have hcats : (deleteCategory cat st).categories
      = st.categories.filter (fun c => c != cat) := rfl
  intro t ht
  rw [htasks] at ht
  rw [hcats]
  obtain ⟨u, hu, rfl⟩ := List.mem_map.mp ht
  by_cases hc : u.category = cat
  · rw [if_pos hc, hfb]
    exact List.mem_filter.mpr ⟨hmem, hbne⟩
  · rw [if_neg hc]
    exact List.mem_filter.mpr ⟨hinv u hu, bne_iff_ne.mpr hc⟩

/-- C1 witness: deleting `"Work"` from `["Home", "Work"]` keeps the invariant,
the task falling back to the still-active `"Home"`. -/
theorem deleteCategory_preserves_invariant_witness :
    invariantHolds twoCatState
    ∧ twoCatState.categories.find? (fun c => c != "Work") = some "Home"
    ∧ ("Home" : String) ≠ ""
    ∧ invariantHolds (deleteCategory "Work" twoCatState) :=
  ⟨by decide, by decide, by decide,
    deleteCategory_preserves_invariant twoCatState "Work" "Home"
      (by decide) (by decide) (by decide)⟩

/-- C2 counterexample: in a state (reached by import) whose active categories
are `["", "B"]`, deleting `"B"` reassigns the task in `"B"` to `"General"`,
not to the first other active category `""` — which stays active, so "no other
active category exists" does not hold either. -/
theorem fallback_skips_empty_string_category :
    bTask ∈ emptyNameState.tasks
    ∧ bTask.category = "B"
    ∧ "B" ∈ emptyNameState.categories
    ∧ emptyNameState.categories.find? (fun c => c != "B") = some ""
    ∧ (deleteCategory "B" emptyNameState).tasks.map (fun t => t.category)
        = ["General"]
    ∧ "" ∈ (deleteCategory "B" emptyNameState).categories := by decide

/-- C2 (amended): for a name in the active list, `deleteCategory` rewrites
exactly the tasks in that category to the fallback, computed once from the
pre-deletion list; the fallback is the first other active category when that
is a non-empty string, and `"General"` when there is no other active category
or the first other one is the empty string; the name is removed from the
active list, archived at the front, and the filter resets to all tasks
exactly when it pointed at the deleted name. -/
theorem deleteCategory_spec (st : AppState) (cat : String)
    (_hmem : cat ∈ st.categories) :
    (deleteCategory cat st).tasks
      = st.tasks.map (fun t => if t.category = cat
          then { t with category := fallbackFor st.categories cat } else t)
    ∧ (st.categories.find? (fun c => c != cat) = none →
        fallbackFor st.categories cat = "General")
    ∧ (st.categories.find? (fun c => c != cat) = some "" →
        fallbackFor st.categories cat = "General")
    ∧ (∀ other, st.categories.find? (fun c => c != cat) = some other →
        other ≠ "" → fallbackFor st.categories cat = other)
    ∧ (deleteCategory cat st).categories = st.categories.filter (fun c => c != cat)
    ∧ (deleteCategory cat st).archivedCategories = cat :: st.archivedCategories
    ∧ (deleteCategory cat st).activeCategory
        = (if st.activeCategory = cat then "All" else st.activeCategory) := by
  refine ⟨rfl, ?_, ?_, ?_, rfl, rfl, rfl⟩
  · intro h
    unfold fallbackFor
    rw [h]
  · intro h
    unfold fallbackFor
    rw [h]
    simp
  · intro other h hne
    unfold fallbackFor
    rw [h]
    simp [hne]

/-- C2 witness: deleting `"Work"` from the two-category state. -/
theorem deleteCategory_spec_witness :
    "Work" ∈ twoCatState.categories
    ∧ (deleteCategory "Work" twoCatState).tasks
        = twoCatState.tasks.map (fun t => if t.category = "Work"
            then { t with category := fallbackFor twoCatState.categories "Work" }
            else t) :=
  ⟨by decide, (deleteCategory_spec twoCatState "Work" (by decide)).1⟩

/-- C6: evaluation of the purge/undo interaction at the failing input.  After
deleting `"task_1"` it sits in the archive and in the undo slot; the purge
removes it from both collections without touching either undo slot (so no new
undo entry is created), yet `undoDelete` afterwards re-inserts the purged task
into the active list: the purge is reversed. -/
theorem purge_reversed_by_stale_undo :
    deletedTaskState.archivedTasks.map (fun t => t.id) = ["task_1"]
    ∧ purgedState.tasks = []
    ∧ purgedState.archivedTasks = []
    ∧ purgedState.lastDeletedTask = deletedTaskState.lastDeletedTask
    ∧ purgedState.lastDeletedCategory = deletedTaskState.lastDeletedCategory
    ∧ (undoDelete purgedState).tasks.map (fun t => t.id) = ["task_1"] := by decide

/-- C4: deleting a task whose id occurs exactly once in the active list and
not at all in the archive, then undoing, restores the very same task value to
the active set (prepended), leaves the active tasks a permutation of the
original, and returns the archive and category collections to exactly their
pre-deletion contents. -/
theorem deleteTask_undo_roundtrip (st : AppState) (t : Task)
    (huniq : st.tasks.filter (fun u => u.id == t.id) = [t])
    (harch : ∀ a ∈ st.archivedTasks, (a.id == t.id) = false) :
    (undoDelete (deleteTask t.id st)).tasks
        = t :: st.tasks.filter (fun u => u.id != t.id)
    ∧ ((undoDelete (deleteTask t.id st)).tasks).Perm st.tasks
    ∧ t ∈ (undoDelete (deleteTask t.id st)).tasks
    ∧ (undoDelete (deleteTask t.id st)).archivedTasks = st.archivedTasks
    ∧ t ∉ (undoDelete (deleteTask t.id st)).archivedTasks
    ∧ (undoDelete (deleteTask t.id st)).categories = st.categories
    ∧ (undoDelete (deleteTask t.id st)).archivedCategories
        = st.archivedCategories := by
  have hfind : st.tasks.find? (fun u => u.id == t.id) = some t :=
    find?_of_filter_eq_singleton huniq
  have hd : deleteTask t.id st =
      { st with
        archivedTasks := t :: st.archivedTasks,
        tasks := st.tasks.filter (fun u => u.id != t.id),
        lastDeletedTask := some t } := by
    unfold deleteTask
    rw [hfind]
  rw [hd, undoDelete_task_slot _ t rfl]
  have harch2 : (t :: st.archivedTasks).filter (fun u => u.id != t.id)
      = st.archivedTasks := by
    rw [List.filter_cons_of_neg (by simp)]
    exact List.filter_eq_self.mpr (fun a ha => by
      simp only [bne, harch a ha, Bool.not_false])
  refine ⟨rfl, ?_, List.mem_cons_self t _, harch2, ?_, rfl, rfl⟩
  · exact cons_filter_not_perm huniq
  · rw [harch2]
    intro hmem
    have := harch t hmem
    simp at this

/-- C4 witness: the round trip on a concrete one-task state. -/
theorem deleteTask_undo_roundtrip_witness :
    roundtripState.tasks.filter (fun u => u.id == workTask.id) = [workTask]
    ∧ (undoDelete (deleteTask workTask.id roundtripState)).tasks
        = workTask :: roundtripState.tasks.filter (fun u => u.id != workTask.id)
    ∧ (undoDelete (deleteTask workTask.id roundtripState)).archivedTasks
        = roundtripState.archivedTasks :=
  ⟨by decide,
    (deleteTask_undo_roundtrip roundtripState workTask (by decide)
      (by decide)).1,
    (deleteTask_undo_roundtrip roundtripState workTask (by decide)
      (by decide)).2.2.2.1⟩

/-- C8: every active category has a stats row whose count is the number of
active tasks in it and whose progress lies in `[0, 100]`, is `0` for an empty
category and equals `100 * completed / count` for a non-empty one. -/
theorem categoryStats_spec (st : AppState) (c : String) (hc : c ∈ st.categories) :
    ∃ s, s ∈ categoryStats st
      ∧ s.name = c
      ∧ s.count = (st.tasks.filter (fun t => t.category == c)).length
      ∧ 0 ≤ s.progress
      ∧ s.progress ≤ 100
      ∧ (s.count = 0 → s.progress = 0)
      ∧ (0 < s.count → s.progress
          = 100 * (((st.tasks.filter (fun t => t.category == c)).filter
              (fun t => t.completed)).length : ℚ) / (s.count : ℚ)) := by
  refine ⟨catStatFor st c, List.mem_map_of_mem _ hc, rfl, rfl, ?_, ?_, ?_, ?_⟩
  all_goals
    unfold catStatFor
    dsimp only
    by_cases hn : (st.tasks.filter (fun t => t.category == c)).length = 0
  · simp only [hn, if_pos rfl]
    norm_num
  · rw [if_neg hn]
    positivity
  · simp only [hn, if_pos rfl]
    norm_num
  · rw [if_neg hn]
    have hkle : ((st.tasks.filter (fun t => t.category == c)).filter
        (fun t => t.completed)).length
        ≤ (st.tasks.filter (fun t => t.category == c)).length :=
      List.length_filter_le _ _
    have hpos : (0 : ℚ) < ((st.tasks.filter (fun t => t.category == c)).length : ℚ) := by
      exact_mod_cast Nat.pos_of_ne_zero hn
    have hdiv : (((st.tasks.filter (fun t => t.category == c)).filter
          (fun t => t.completed)).length : ℚ)
        / ((st.tasks.filter (fun t => t.category == c)).length : ℚ) ≤ 1 :=
      div_le_one_of_le₀ (by exact_mod_cast hkle) hpos.le
    calc (((st.tasks.filter (fun t => t.category == c)).filter
            (fun t => t.completed)).length : ℚ)
          / ((st.tasks.filter (fun t => t.category == c)).length : ℚ) * 100
        ≤ 1 * 100 := mul_le_mul_of_nonneg_right hdiv (by norm_num)
      _ = 100 := one_mul 100
  · intro h0
    rw [if_pos h0]
  · intro h0
    exact absurd h0 hn
  · intro hpos
    omega
  · intro hpos
    rw [if_neg hn]
    ring

/-- C8 witness: the stats row for the concrete category `"Work"`. -/
theorem categoryStats_spec_witness :
    "Work" ∈ roundtripState.categories
    ∧ ∃ s, s ∈ categoryStats roundtripState
      ∧ s.name = "Work"
      ∧ s.count = (roundtripState.tasks.filter (fun t => t.category == "Work")).length
      ∧ 0 ≤ s.progress
      ∧ s.progress ≤ 100
      ∧ (s.count = 0 → s.progress = 0)
      ∧ (0 < s.count → s.progress
          = 100 * (((roundtripState.tasks.filter (fun t => t.category == "Work")).filter
              (fun t => t.completed)).length : ℚ) / (s.count : ℚ)) :=
  ⟨by decide, categoryStats_spec roundtripState "Work" (by decide)⟩

/-- C9: with no category filter and an empty search query the displayed list
is the canonical task list and a submitted reordering replaces the canonical
order; in every other view state a reordering attempt leaves the state (in
particular the canonical task list) unchanged. -/
theorem reorder_only_unfiltered (st : AppState) (newOrder : List Task) :
    (st.activeCategory = "All" → st.searchQuery = "" →
      filteredTasks st = st.tasks
      ∧ reorderTasks newOrder st = { st with tasks := newOrder })
    ∧ (¬ (st.activeCategory = "All" ∧ st.searchQuery = "") →
      reorderTasks newOrder st = st) := by
  constructor
  · intro h1 h2
    constructor
    · unfold filteredTasks
      refine List.filter_eq_self.mpr (fun t ht => ?_)
      rw [h1, h2]
      have hpat : strIncludes (strToLower t.text) (strToLower "") = true :=
        charsInclude_nil _
      simp [hpat]
    · unfold reorderTasks
      rw [if_pos ⟨h1, h2⟩]
  · intro h
    unfold reorderTasks
    rw [if_neg h]

/-- C9 witness: reordering is applied in the unfiltered view and is a no-op
under the `"Home"` category filter. -/
theorem reorder_only_unfiltered_witness :
    (roundtripState.activeCategory = "All" ∧ roundtripState.searchQuery = "")
    ∧ (filteredTasks roundtripState = roundtripState.tasks
        ∧ reorderTasks [] roundtripState = { roundtripState with tasks := [] })
    ∧ ¬ (filteredViewState.activeCategory = "All"
          ∧ filteredViewState.searchQuery = "")
    ∧ reorderTasks [] filteredViewState = filteredViewState :=
  ⟨⟨rfl, rfl⟩,
    (reorder_only_unfiltered roundtripState []).1 rfl rfl,
    by decide,
    (reorder_only_unfiltered filteredViewState []).2 (by decide)⟩

end Todry
